import Mathlib

/-!
Verification of the budget-directed rendering and truncation engine of
html_extractor.py (robocorp/llmstatemachine, examples/html_agent).

Strings are modelled as List Char (Python str, character counts). Machine
integers are Nat or Int with the Python semantics spelled out at each use
site. Fallible Python code (ZeroDivisionError, non-terminating loops) is
modelled with Option. The markup parser (BeautifulSoup) and its node trees
are external collaborators per the design: where a definition needs them,
it takes the collaborator as an explicit function or a small node model,
and the surrounding comment says so.
-/

set_option autoImplicit false

namespace HtmlExtractor

/-- Python slice content[a:b] for Nat bounds (both known nonnegative at the
call site): keep indices a <= i < b, clamped to the list. -/
def pySliceN (s : List Char) (a b : Nat) : List Char :=
  (s.take b).drop a

/-- Python slice content[a:b] with Int bounds: a negative index is taken
from the end (i + len), then both are clamped into [0, len]. -/
def pySliceInt (s : List Char) (a b : Int) : List Char :=
  let n : Int := s.length
  let a2 : Int := if a < 0 then a + n else a
  let b2 : Int := if b < 0 then b + n else b
  (s.take (max b2 0).toNat).drop (max a2 0).toNat

/-- Python str(n) for a natural number, as a character list. -/
def natStr (n : Nat) : List Char :=
  (Nat.repr n).data

/-- The literal suffix f-string " .. {omitted} characters omitted" used by
truncate_until and the no-focus truncation branch. -/
def omittedMarker (n : Nat) : List Char :=
  " .. ".data ++ natStr n ++ " characters omitted".data

/-- The Python membership test needle in hay on strings: some index i has
the needle as the length-sized block of hay starting at i. -/
def strContains (hay needle : List Char) : Bool :=
  (List.range (hay.length + 1)).any
    (fun i => decide ((hay.drop i).take needle.length = needle))

/-- Propositional form of literal substring containment: F occurs intact
and contiguous somewhere in s. -/
def SubstrOf (F s : List Char) : Prop :=
  ∃ i, (s.drop i).take F.length = F

/-- Python content.find(needle): index of the first occurrence (only used
under a containment guard, where it is well defined; getD 0 is dead). -/
def strFindIdx (hay needle : List Char) : Nat :=
  ((List.range (hay.length + 1)).find?
    (fun i => decide ((hay.drop i).take needle.length = needle))).getD 0

/-- One step list of non-overlapping leftmost matches of a literal pattern,
scanning from position i with explicit fuel. Models re.finditer of
truncate_until for patterns without regex metacharacters; the design notes
flag the pattern-vs-literal discrepancy of the source as an open question
and treat the focus text as a literal substring, which this follows. -/
def litFindAux (s F : List Char) : Nat → Nat → List (Nat × Nat)
  | 0, _ => []
  | fuel + 1, i =>
    if i + F.length ≤ s.length then
      if (s.drop i).take F.length = F then
        (i, i + F.length) :: litFindAux s F fuel (i + F.length)
      else
        litFindAux s F fuel (i + 1)
    else
      []

/-- All non-overlapping leftmost literal matches of F in s, as half-open
(start, end) spans: list(re.finditer(focus_text, original_html)) of the
source for a metacharacter-free focus_text. -/
def litFind (s F : List Char) : List (Nat × Nat) :=
  litFindAux s F (s.length + 1) 0

/-- The body of the sort-and-merge loop of truncate_until, carrying the
last merged span: an incoming span is merged into it when it starts at or
before its end, else the last span is emitted and the incoming one becomes
the new last. -/
def mergeSegsAux (cur : Nat × Nat) : List (Nat × Nat) → List (Nat × Nat)
  | [] => [cur]
  | (a2, b2) :: rest =>
    if a2 ≤ cur.2 then
      mergeSegsAux (cur.1, max cur.2 b2) rest
    else
      cur :: mergeSegsAux (a2, b2) rest

/-- The sort-and-merge loop of truncate_until: merged_segments. The source
list from finditer is already sorted, so the sort is the identity. -/
def mergeSegs : List (Nat × Nat) → List (Nat × Nat)
  | [] => []
  | p :: rest => mergeSegsAux p rest

/-- The gap-collection loop of truncate_until: truncated_segments, the text
before, between and after the merged preserved segments. -/
def gapsOf (s : List Char) : List (Nat × Nat) → Nat → List (List Char)
  | [], lastEnd => [s.drop lastEnd]
  | (a, _b) :: rest, lastEnd => pySliceN s lastEnd a :: gapsOf s rest _b

/-- The first reassembly loop of truncate_until: walks the gaps, gives gap
i of k a budget of remaining // max(1, k - i) characters (forced to 1 when
remaining is still positive, 0 once it is spent), consumes that prefix and
breaks as soon as remaining reaches 0. remaining is an int in the source
but provably never negative in this loop, so Nat subtraction is exact. -/
def allocLoop (k : Nat) : Nat → Nat → List (List Char) → List Char
  | _, _, [] => []
  | remaining, i, g :: rest =>
    let q : Nat := remaining / max 1 (k - i)
    let segLen : Nat := if 0 < remaining then max 1 q else 0
    let piece : List Char := g.take segLen
    let remaining2 : Nat := remaining - piece.length
    piece ++ (if remaining2 = 0 then [] else allocLoop k remaining2 (i + 1) rest)

/-- The second reassembly loop of truncate_until: for each merged segment
it appends the full original text from the previous end to the segment
start and then the segment itself, returning the accumulated text together
with the final last_end. -/
def segLoop (s : List Char) : List (Nat × Nat) → Nat → List Char × Nat
  | [], lastEnd => ([], lastEnd)
  | (a, b) :: rest, lastEnd =>
    let tail := segLoop s rest b
    (pySliceN s lastEnd a ++ pySliceN s a b ++ tail.1, tail.2)

/-- truncate_until(original_html, focus_text, max_total_length) of the
source, line for line: early return when the text already fits; plain cut
plus omitted marker when the focus is empty or absent; preserved segments
hard-cut to the bound plus " ..." when they alone exceed it; otherwise the
two reassembly loops, the final slice with a possibly negative Python stop
index, and the omitted marker when characters were lost. -/
def truncate_until (s F : List Char) (N : Nat) : List Char :=
  if s.length ≤ N then s
  else
    let ms := litFind s F
    if F = [] ∨ ms = [] then
      s.take N ++ omittedMarker (s.length - N)
    else
      let merged := mergeSegs ms
      let preservedLength := (merged.map (fun p => p.2 - p.1)).sum
      if N < preservedLength then
        ((merged.map (fun p => pySliceN s p.1 p.2)).flatten).take N ++ " ...".data
      else
        let remaining := N - preservedLength
        let gaps := gapsOf s merged 0
        let t1 := allocLoop gaps.length remaining 0 gaps
        let sl := segLoop s merged 0
        let t2 := t1 ++ sl.1
        let t3 := t2 ++ pySliceInt s (sl.2 : Int) ((N : Int) - (t2.length : Int))
        if t3.length < s.length then t3 ++ omittedMarker (s.length - t3.length) else t3

/-- pretty_print_html of the source. The two tree-dependent steps are the
external parsing collaborator: prettify maps the markup to the canonical
pretty serialization after collapsing, formatTop to the separator-joined
output of format_children over the top-level nodes. Both early exits and
the final truncate_until call are the own logic of the source. -/
def pretty_print_html (prettify formatTop : List Char → List Char)
    (html F : List Char) (N : Nat) : List Char :=
  if html.length ≤ N then html
  else if (prettify html).length ≤ N then prettify html
  else truncate_until (formatTop html) F N

/-- html_explorer of the source with an empty css_selector: the filter
block is skipped, post_fix stays empty, and the result is the
pretty_print_html output with the empty post_fix appended. -/
def html_explorer (prettify formatTop : List Char → List Char)
    (html F : List Char) (N : Nat) : List Char :=
  pretty_print_html prettify formatTop html F N ++ []

/-! ### Substring lemmas -/

theorem take_eq_of_substr_at {s F : List Char} {j : Nat}
    (h : (s.drop j).take F.length = F) (hF : F ≠ []) :
    j + F.length ≤ s.length := by
  have hlen : min F.length (s.length - j) = F.length := by
    simpa using congrArg List.length h
  have hFpos : 0 < F.length := List.length_pos.mpr hF
  omega

theorem substr_append_right {F x : List Char} (y : List Char)
    (h : SubstrOf F x) : SubstrOf F (x ++ y) := by
  obtain ⟨i, hi⟩ := h
  by_cases hF : F = []
  · exact ⟨0, by simp [hF]⟩
  · have hix : i + F.length ≤ x.length := take_eq_of_substr_at hi hF
    refine ⟨i, ?_⟩
    rw [List.drop_append_eq_append_drop]
    have hi0 : i - x.length = 0 := by omega
    rw [hi0, List.drop_zero, List.take_append_eq_append_take]
    have h0 : F.length - (x.drop i).length = 0 := by
      rw [List.length_drop]; omega
    rw [h0, List.take_zero, List.append_nil, hi]

theorem substr_append_left {F y : List Char} (x : List Char)
    (h : SubstrOf F y) : SubstrOf F (x ++ y) := by
  obtain ⟨i, hi⟩ := h
  refine ⟨x.length + i, ?_⟩
  rw [← List.drop_drop, List.drop_left, hi]

theorem substr_of_take_at_zero {F x : List Char} (h : x.take F.length = F) :
    SubstrOf F x :=
  ⟨0, by simpa using h⟩

theorem take_slice_eq {s F : List Char} {a b : Nat}
    (hocc : (s.drop a).take F.length = F) (hab : a + F.length ≤ b) :
    (pySliceN s a b).take F.length = F := by
  unfold pySliceN
  rw [List.drop_take, List.take_take]
  have : min F.length (b - a) = F.length := by omega
  rw [this, hocc]

theorem take_of_take_long {F x : List Char} {N : Nat}
    (h : x.take F.length = F) (hN : F.length ≤ N) :
    (x.take N).take F.length = F := by
  rw [List.take_take]
  have : min F.length N = F.length := by omega
  rw [this, h]

/-! ### litFind lemmas -/

theorem litFindAux_ne_nil {s F : List Char} (hF : F ≠ []) :
    ∀ (fuel i : Nat),
      (∃ j, i ≤ j ∧ j + F.length ≤ s.length ∧ (s.drop j).take F.length = F) →
      s.length + 1 - i ≤ fuel → litFindAux s F fuel i ≠ [] := by
  intro fuel
  induction fuel with
  | zero =>
    intro i ⟨j, hij, hjs, _⟩ hfi
    have : 0 < F.length := List.length_pos.mpr hF
    omega
  | succ n ih =>
    intro i ⟨j, hij, hjs, hocc⟩ hfi
    rw [litFindAux]
    have hguard : i + F.length ≤ s.length := by omega
    rw [if_pos hguard]
    by_cases hm : (s.drop i).take F.length = F
    · rw [if_pos hm]; exact List.cons_ne_nil _ _
    · rw [if_neg hm]
      have hji : i ≠ j := fun h => hm (h ▸ hocc)
      exact ih (i + 1) ⟨j, by omega, hjs, hocc⟩ (by omega)

theorem litFindAux_head {s F : List Char} :
    ∀ (fuel i a b : Nat) (rest : List (Nat × Nat)),
      litFindAux s F fuel i = (a, b) :: rest →
      b = a + F.length ∧ (s.drop a).take F.length = F := by
  intro fuel
  induction fuel with
  | zero => intro i a b rest h; simp [litFindAux] at h
  | succ n ih =>
    intro i a b rest h
    rw [litFindAux] at h
    by_cases hguard : i + F.length ≤ s.length
    · rw [if_pos hguard] at h
      by_cases hm : (s.drop i).take F.length = F
      · rw [if_pos hm] at h
        injection h with h1 h2
        injection h1 with ha hb
        subst ha
        exact ⟨hb.symm, hm⟩
      · rw [if_neg hm] at h
        exact ih (i + 1) a b rest h
    · rw [if_neg hguard] at h
      simp at h

theorem litFind_ne_nil {s F : List Char} (hF : F ≠ []) (hsub : SubstrOf F s) :
    litFind s F ≠ [] := by
  obtain ⟨j, hj⟩ := hsub
  have hjs : j + F.length ≤ s.length := take_eq_of_substr_at hj hF
  exact litFindAux_ne_nil hF (s.length + 1) 0 ⟨j, Nat.zero_le _, hjs, hj⟩ (by omega)

theorem litFind_head {s F : List Char} {a b : Nat} {rest : List (Nat × Nat)}
    (h : litFind s F = (a, b) :: rest) :
    b = a + F.length ∧ (s.drop a).take F.length = F :=
  litFindAux_head (s.length + 1) 0 a b rest h

/-! ### mergeSegs lemma -/

theorem mergeSegsAux_head (l : List (Nat × Nat)) :
    ∀ (a b : Nat), ∃ (B : Nat) (rest : List (Nat × Nat)),
      mergeSegsAux (a, b) l = (a, B) :: rest ∧ b ≤ B := by
  induction l with
  | nil => intro a b; exact ⟨b, [], rfl, Nat.le_refl b⟩
  | cons p tl ih =>
    intro a b
    obtain ⟨a2, b2⟩ := p
    by_cases hle : a2 ≤ b
    · obtain ⟨B, rest, heq, hB⟩ := ih a (max b b2)
      refine ⟨B, rest, ?_, le_trans (le_max_left b b2) hB⟩
      rw [mergeSegsAux, if_pos hle]
      exact heq
    · refine ⟨b, mergeSegsAux (a2, b2) tl, ?_, Nat.le_refl b⟩
      rw [mergeSegsAux, if_neg hle]

theorem mergeSegs_head (l : List (Nat × Nat)) (a b : Nat) :
    ∃ (B : Nat) (rest : List (Nat × Nat)),
      mergeSegs ((a, b) :: l) = (a, B) :: rest ∧ b ≤ B :=
  mergeSegsAux_head l a b

/-! ### Focus preservation through truncate_until -/

theorem truncate_until_keeps_focus {s F : List Char} {N : Nat}
    (hF : F ≠ []) (hsub : SubstrOf F s) (hN : F.length ≤ N) :
    SubstrOf F (truncate_until s F N) := by
  by_cases hsN : s.length ≤ N
  · rw [truncate_until, if_pos hsN]; exact hsub
  · have hms : litFind s F ≠ [] := litFind_ne_nil hF hsub
    obtain ⟨⟨a, b⟩, tl, hms_eq⟩ := List.exists_cons_of_ne_nil hms
    obtain ⟨hb, hocc⟩ := litFind_head hms_eq
    obtain ⟨B, rest, hmerge, hbB⟩ := mergeSegs_head tl a b
    have haB : a + F.length ≤ B := by omega
    have h1 : (pySliceN s a B).take F.length = F := take_slice_eq hocc haB
    simp only [truncate_until, hms_eq, hmerge]
    rw [if_neg hsN, if_neg (by simp [hF])]
    split
    · -- preserved segments alone exceed the budget: hard cut plus " ..."
      refine substr_append_right _ (substr_of_take_at_zero ?_)
      rw [List.take_take, min_eq_left hN]
      simp only [List.map_cons, List.flatten_cons]
      rw [List.take_append_eq_append_take]
      have hxlen : F.length ≤ (pySliceN s a B).length := by
        have := congrArg List.length h1
        simp at this
        omega
      have h0 : F.length - (pySliceN s a B).length = 0 := by omega
      rw [h0, List.take_zero, List.append_nil, h1]
    · -- reassembly branch: the second loop emits the full prefix of s
      -- through the end of each merged segment, so F survives intact
      simp only [segLoop]
      have hsl : SubstrOf F
          (pySliceN s 0 a ++ pySliceN s a B ++ (segLoop s rest B).1) :=
        substr_append_right _
          (substr_append_left _ (substr_of_take_at_zero h1))
      split
      · exact substr_append_right _
          (substr_append_right _ (substr_append_left _ hsl))
      · exact substr_append_right _ (substr_append_left _ hsl)

/-- C1: focus preservation. For every focus text F that occurs literally in
the rendered text and every budget at least the length of F, the output of
truncate_until still contains F intact and contiguous; consequently, along
every branch of html_explorer (fast path, collapsed pretty path, or the
rendered text handed to the final truncation), an F surviving the external
rendering collaborators survives to the final output. -/
theorem C1_focus_preservation (F s html : List Char) (N : Nat)
    (prettify formatTop : List Char → List Char)
    (hF : F ≠ []) (hN : F.length ≤ N) :
    (SubstrOf F s → SubstrOf F (truncate_until s F N)) ∧
    (SubstrOf F html → SubstrOf F (prettify html) →
      SubstrOf F (formatTop html) →
      SubstrOf F (html_explorer prettify formatTop html F N)) := by
  constructor
  · exact fun hs => truncate_until_keeps_focus hF hs hN
  · intro h1 h2 h3
    unfold html_explorer pretty_print_html
    rw [List.append_nil]
    split
    · exact h1
    · split
      · exact h2
      · exact truncate_until_keeps_focus hF h3 hN

/-- Witness for C1 at a concrete input: focus F inside aaaFbbb with budget
5 survives truncation, on both the truncate_until form and the
html_explorer form. -/
theorem C1_focus_preservation_witness :
    SubstrOf ['F'] (truncate_until "aaaFbbb".data ['F'] 5) ∧
    SubstrOf ['F'] (html_explorer id id "aaaFbbb".data ['F'] 5) :=
  ⟨(C1_focus_preservation ['F'] "aaaFbbb".data "aaaFbbb".data 5 id id
      (by decide) (by decide)).1 ⟨3, by decide⟩,
   (C1_focus_preservation ['F'] "aaaFbbb".data "aaaFbbb".data 5 id id
      (by decide) (by decide)).2 ⟨3, by decide⟩ ⟨3, by decide⟩ ⟨3, by decide⟩⟩

/-! ### Size bound and reassembly of the final truncator -/

/-- A rendered text of 40 X characters followed by one F: 41 characters,
focus at the very end. -/
def c2Input : List Char := List.replicate 40 'X' ++ ['F']

/-- C2: the soft size bound fails on the code. With focus F and budget 5,
truncate_until returns 43 characters on the 41-character input c2Input:
the second reassembly loop re-appends the full original text up to the end
of the last preserved segment on top of the gap prefixes taken by the
first loop, so the output exceeds the budget by far more than one omitted
marker (the spec-level overhead bound 5 + 25 = 30 is strictly beaten). -/
theorem C2_size_bound_violation :
    (truncate_until c2Input ['F'] 5).length = 43 ∧
    5 + (omittedMarker 36).length < 43 := by decide

/-- C3: the case-4 reassembly of truncate_until does not interleave the
truncated gaps with the preserved segments. On aaaFbbb with focus F and
budget 5 the code returns aabbaaaF (the gap prefixes aa and bb, then a
full duplicate of the text aaaF up to the end of the preserved segment),
not the interleaving aaFbb followed by an omitted marker that the claim
describes. -/
theorem C3_reassembly_divergence :
    truncate_until "aaaFbbb".data ['F'] 5 = "aabbaaaF".data := by decide

/-- C4: identity on fitting input. When the markup already fits the
budget, html_explorer (with no CSS selector) returns it unchanged,
whatever the external collaborators would do on larger inputs. -/
theorem C4_identity_on_fitting (prettify formatTop : List Char → List Char)
    (html F : List Char) (N : Nat) (h : html.length ≤ N) :
    html_explorer prettify formatTop html F N = html := by
  unfold html_explorer pretty_print_html
  rw [if_pos h, List.append_nil]

/-- Witness for C4 at a concrete input. -/
theorem C4_identity_on_fitting_witness :
    html_explorer id id "<p>hi</p>".data [] 20 = "<p>hi</p>".data :=
  C4_identity_on_fitting id id "<p>hi</p>".data [] 20 (by decide)

/-! ### Child planner: format_children -/

/-- External node model for the child planner. format_children touches a
child only through str(child) (its canonical serialization, produced by
the external parsing collaborator), a Python equality test against ints,
and the recursive format_element call, which is passed in here as the
render parameter. -/
structure PageElement where
  str : List Char

instance : Inhabited PageElement := ⟨⟨[]⟩⟩

/-- children_with_focus_text of the source: indices of children whose
serialization contains the focus text; empty when the focus is empty. -/
def children_with_focus_text (children : List PageElement) (F : List Char) :
    List Nat :=
  if F = [] then []
  else ((children.enum).filter (fun ic => strContains ic.2.str F)).map
    (fun ic => ic.1)

/-- The Python membership test of a bs4 node in a list of ints: equality
between a PageElement (a Tag or a NavigableString) and an int is always
False in Python, so membership is constantly false. The source filter
child not in focused_children therefore keeps every child. -/
def pyElemInIntList (_child : PageElement) (_l : List Nat) : Bool := false

/-- Python sorted(set(l)) on ints: distinct values in ascending order. -/
def sortedDedup (l : List Nat) : List Nat :=
  List.insertionSort (fun x y => x ≤ y) l.dedup

/-- The children_to_display computation of format_children: focused
indices capped at max_child_elements, plus the first slots_for_others
entries of the comprehension over enumerate(children) whose filter
compares each child against the int list focused_children (a no-op that
keeps every index), deduplicated and sorted. -/
def childrenToDisplay (children : List PageElement) (F : List Char)
    (maxChild : Nat) : List Nat :=
  let focused := (children_with_focus_text children F).take maxChild
  let slots := maxChild - focused.length
  let others := ((children.enum).filter
    (fun ic => ! pyElemInIntList ic.2 focused)).map (fun ic => ic.1)
  sortedDedup (focused ++ others.take slots)

/-- size_of_displayed_children of the source: the summed serialization
lengths of the displayed children. -/
def totalShownSize (children : List PageElement) (F : List Char)
    (maxChild : Nat) : Nat :=
  ((childrenToDisplay children F maxChild).map
    (fun i => (children.getD i default).str.length)).sum

/-- The skipped-children placeholder f-string of format_children, with
Python singular/plural agreement. -/
def skippedMarker (n : Nat) : List Char :=
  "<!-- .. skipped ".data ++ natStr n ++
    (if 1 < n then " items" else " item").data ++ " .. -->".data

/-- The display loop of format_children over the chosen indices, carrying
running_index. allocated_size is int(max_size * child_size / total), a
Python float division truncated toward zero, which on these nonnegative
operands is floor division; it raises ZeroDivisionError when the total is
zero, modelled by none. -/
def fcLoop (render : PageElement → Nat → Option (List Char))
    (children : List PageElement) (maxSize total : Nat) :
    List Nat → Nat → Option (List (List Char))
  | [], runningIndex =>
    some (if 0 < children.length - runningIndex
      then [skippedMarker (children.length - runningIndex)] else [])
  | i :: rest, runningIndex =>
    if total = 0 then none
    else
      let child := children.getD i default
      let allocated := maxSize * child.str.length / total
      let skipped := i - runningIndex
      match render child allocated with
      | none => none
      | some fragment =>
        match fcLoop render children maxSize total rest (i + 1) with
        | none => none
        | some out =>
          some ((if 0 < skipped then [skippedMarker skipped] else []) ++
            fragment :: out)

/-- format_children of the source. The separator and attribute_priority
arguments are only forwarded to format_element, which is the render
parameter here. -/
def format_children (render : PageElement → Nat → Option (List Char))
    (children : List PageElement) (F : List Char)
    (maxSizeForChildren : Nat) (maxChild : Nat := 5) :
    Option (List (List Char)) :=
  fcLoop render children maxSizeForChildren
    (totalShownSize children F maxChild)
    (childrenToDisplay children F maxChild) 0

/-- Modelled from the spec: the shown set of the Child Planner as the
spec words it — the focused indices capped at max_shown, plus the
earliest-index children NOT already focused filling the remaining
max_shown - len(focused) slots, union sorted ascending. -/
def specShownSet (children : List PageElement) (F : List Char)
    (maxChild : Nat) : List Nat :=
  let focused := (children_with_focus_text children F).take maxChild
  let slots := maxChild - focused.length
  let others := ((List.range children.length).filter
    (fun i => ! focused.contains i)).take slots
  sortedDedup (focused ++ others)

/-- Children serialized as f, f, a, b, c: the first two contain the focus
text f. -/
def c5Children : List PageElement :=
  [⟨['f']⟩, ⟨['f']⟩, ⟨['a']⟩, ⟨['b']⟩, ⟨['c']⟩]

/-- C5: the shown-set selection diverges from the claim. With two focused
children among five and max_shown 5, the code shows only indices 0, 1, 2:
the filter child not in focused_children compares nodes with ints and
keeps every child, so the non-focused fill [0,1,2] collapses into the
focused set instead of adding the earliest non-focused children 2, 3, 4
that the claim (and the dead filter) intend. -/
theorem C5_shown_set_divergence :
    childrenToDisplay c5Children ['f'] 5 = [0, 1, 2] ∧
    specShownSet c5Children ['f'] 5 = [0, 1, 2, 3, 4] := by decide

/-- C6 counterexample: a single shown child with an empty serialization
makes total_shown_size zero, and format_children fails (ZeroDivisionError
in the source) instead of allocating budget 0. -/
theorem C6_zero_total_counterexample :
    format_children (fun _ _ => some []) [PageElement.mk []] [] 10 5 =
      none := by decide

/-- C6 amended: when total_shown_size is 0, format_children returns its
fragment list (just the trailing skip marker, no child fragments) without
failing exactly when no child is shown; as soon as one child is shown, the
budget division fails with ZeroDivisionError rather than allocating 0. -/
theorem C6_zero_total_behavior
    (render : PageElement → Nat → Option (List Char))
    (children : List PageElement) (F : List Char) (maxSize maxChild : Nat)
    (htotal : totalShownSize children F maxChild = 0) :
    (childrenToDisplay children F maxChild = [] →
      format_children render children F maxSize maxChild =
        some (if 0 < children.length then [skippedMarker children.length]
          else [])) ∧
    (childrenToDisplay children F maxChild ≠ [] →
      format_children render children F maxSize maxChild = none) := by
  constructor
  · intro hdisp
    unfold format_children
    rw [hdisp]
    simp [fcLoop]
  · intro hdisp
    obtain ⟨i, rest, hd⟩ := List.exists_cons_of_ne_nil hdisp
    unfold format_children
    rw [hd, htotal]
    simp [fcLoop]

/-- Witness for C6 at a concrete input: two shown children with empty
serializations give total 0 and a failing planner. -/
theorem C6_zero_total_behavior_witness :
    format_children (fun _ _ => some [])
      [PageElement.mk [], PageElement.mk []] [] 10 5 = none :=
  (C6_zero_total_behavior (fun _ _ => some [])
    [PageElement.mk [], PageElement.mk []] [] 10 5 (by decide)).2 (by decide)

/-! ### Focus shortener: shortened_string -/

/-- The fixed breakpoint characters of the no-focus branch. -/
def breakpoints : List Char := [' ', '/', '.', ',', ';', '-', '_']

/-- The leftward scan: while left_break > 0 and content[left_break] not in
breakpoints, decrement. The getD default is dead: the scan starts at the
midpoint of a nonempty list and only moves left. -/
def scanLeft (content : List Char) : Nat → Nat
  | 0 => 0
  | i + 1 =>
    if content.getD (i + 1) ' ' ∈ breakpoints then i + 1
    else scanLeft content i

/-- The rightward scan: while right_break < len(content) and
content[right_break] not in breakpoints, increment. -/
def scanRight (content : List Char) (i : Nat) : Nat :=
  if h : i < content.length then
    if content.get ⟨i, h⟩ ∈ breakpoints then i else scanRight content (i + 1)
  else i
termination_by content.length - i
decreasing_by omega

/-- The trimming loop of the no-focus branch: while the two parts plus the
joining .. exceed max_string_length, trim one character off the longer
part, or off both when they are equally long. When both parts are already
empty and the budget is still exceeded (max_string_length < 2), the
Python loop never terminates; that divergence is modelled by none. -/
def trimParts (b e : List Char) (maxLen : Nat) :
    Option (List Char × List Char) :=
  if b.length + e.length + 2 ≤ maxLen then some (b, e)
  else if _h1 : e.length < b.length then trimParts b.dropLast e maxLen
  else if _h2 : b.length < e.length then trimParts b (e.drop 1) maxLen
  else if _h3 : b.length = 0 then none
  else trimParts b.dropLast (e.drop 1) maxLen
termination_by b.length + e.length
decreasing_by
  · simp [List.length_dropLast]; omega
  · simp; omega
  · simp [List.length_dropLast]; omega

/-- shortened_string of the source. The focus branch windows the first
occurrence with context, adjusts both ends by half the length difference
(Python floor division on ints, Int.fdiv), clamps, slices with Python
index semantics and adds the .. markers. The no-focus branch scans for
breakpoints outward from the midpoint and trims; none models the
divergence of its while loop. -/
def shortened_string (content F : List Char) (maxStringLength : Nat := 50)
    (contextLength : Nat := 5) : Option (List Char) :=
  if content.length ≤ maxStringLength then some content
  else if F ≠ [] ∧ strContains content F then
    let f0 := strFindIdx content F
    let startIdx0 : Nat := f0 - contextLength
    let endIdx0 : Nat := min (f0 + F.length + contextLength) content.length
    let lengthDiff : Int :=
      (maxStringLength : Int) - ((endIdx0 : Int) - (startIdx0 : Int))
    let halfDiff : Int := Int.fdiv lengthDiff 2
    let startIdx : Int := max ((startIdx0 : Int) - halfDiff) 0
    let endIdx : Int := min ((endIdx0 : Int) + halfDiff) (content.length : Int)
    let truncatedStr := pySliceInt content startIdx endIdx
    let pre : List Char := if 0 < startIdx then ['.', '.'] else []
    let suf : List Char :=
      if endIdx < (content.length : Int) then ['.', '.'] else []
    some (pre ++ truncatedStr ++ suf)
  else
    let mid := content.length / 2
    let leftBreak := scanLeft content mid
    let rightBreak := scanRight content mid
    match trimParts (content.take leftBreak) (content.drop rightBreak)
        maxStringLength with
    | none => none
    | some pr => some (pr.1 ++ ['.', '.'] ++ pr.2)

/-- A 100-character content with the focus F at index 50 and no other
structure: the window around F is 11 characters wide. -/
def c7Content : List Char :=
  List.replicate 50 'a' ++ ['F'] ++ List.replicate 49 'b'

/-- C7 counterexample: the output of shortened_string can exceed max_len
even when max_len is far above the unavoidable focus window plus markers.
On c7Content with max_len 50 the window is grown to exactly 50 characters
and then both .. markers are added, giving 53 > 50, while the focus
window plus markers is only 1 + 2 * 5 + 4 = 15 <= 50. -/
theorem C7_overshoot :
    Option.map List.length (shortened_string c7Content ['F'] 50 5) =
      some 53 ∧
    List.length ['F'] + 2 * 5 + 2 + 2 ≤ 50 := by decide

theorem strFindIdx_spec {hay needle : List Char}
    (h : strContains hay needle = true) :
    (hay.drop (strFindIdx hay needle)).take needle.length = needle := by
  unfold strContains at h
  rw [List.any_eq_true] at h
  obtain ⟨i, hmem, hp⟩ := h
  unfold strFindIdx
  have hsome : ((List.range (hay.length + 1)).find?
      (fun i => decide ((hay.drop i).take needle.length = needle))).isSome := by
    rw [List.find?_isSome]
    exact ⟨i, hmem, hp⟩
  obtain ⟨j, hj⟩ := Option.isSome_iff_exists.mp hsome
  rw [hj]
  simpa using List.find?_some hj

theorem trimParts_fits_aux (m : Nat) :
    ∀ (n : Nat) (b e : List Char), b.length + e.length ≤ n →
      ∀ b2 e2, trimParts b e m = some (b2, e2) →
      b2.length + e2.length + 2 ≤ m := by
  intro n
  induction n with
  | zero =>
    intro b e hle b2 e2 h
    rw [trimParts] at h
    split_ifs at h with hfit h1 h2 h3
    · obtain ⟨rfl, rfl⟩ := Prod.mk.injEq .. ▸ Option.some.inj h
      exact hfit
    · omega
    · omega
    · omega
  | succ n ih =>
    intro b e hle b2 e2 h
    rw [trimParts] at h
    split_ifs at h with hfit h1 h2 h3
    · obtain ⟨rfl, rfl⟩ := Prod.mk.injEq .. ▸ Option.some.inj h
      exact hfit
    · exact ih b.dropLast e (by simp [List.length_dropLast]; omega) b2 e2 h
    · exact ih b (e.drop 1) (by simp; omega) b2 e2 h
    · exact ih b.dropLast (e.drop 1)
        (by simp [List.length_dropLast]; omega) b2 e2 h

theorem trimParts_fits {b e : List Char} {m : Nat} {b2 e2 : List Char}
    (h : trimParts b e m = some (b2, e2)) :
    b2.length + e2.length + 2 ≤ m :=
  trimParts_fits_aux m (b.length + e.length) b e (Nat.le_refl _) b2 e2 h

theorem pySliceInt_length_le {s : List Char} {a b : Int} {m : Nat}
    (ha : 0 ≤ a) (hb : 0 ≤ b) (hab : b - a ≤ (m : Int)) :
    (pySliceInt s a b).length ≤ m := by
  simp only [pySliceInt]
  rw [if_neg (by omega), if_neg (by omega)]
  simp only [List.length_drop, List.length_take]
  omega

/-- Length bound for the focus-branch window slice: however the half
adjustment moves the ends, the clamped Python slice keeps at most maxLen
characters. -/
theorem windowSliceBound (content : List Char) (maxLen s0 e0 : Nat)
    (hs0e0 : s0 ≤ e0) (_he0 : e0 ≤ content.length) :
    (pySliceInt content
      (max ((s0 : Int) -
        Int.fdiv ((maxLen : Int) - ((e0 : Int) - (s0 : Int))) 2) 0)
      (min ((e0 : Int) +
        Int.fdiv ((maxLen : Int) - ((e0 : Int) - (s0 : Int))) 2)
        (content.length : Int))).length ≤ maxLen := by
  have h2 : (0 : Int) < 2 := by norm_num
  set w : Int := (e0 : Int) - (s0 : Int) with hw
  set D : Int := (maxLen : Int) - w with hD
  rw [Int.fdiv_eq_ediv D (by norm_num)]
  have hquot : 2 * (D / 2) ≤ D := by
    have := Int.ediv_add_emod D 2
    have := Int.emod_nonneg D (by norm_num : (2 : Int) ≠ 0)
    omega
  have hlb : -w ≤ D / 2 := by
    have hmono : (-w) / 2 ≤ D / 2 :=
      Int.ediv_le_ediv h2 (by omega)
    have : -w ≤ (-w) / 2 :=
      (Int.le_ediv_iff_mul_le h2).mpr (by omega)
    omega
  apply pySliceInt_length_le
  · omega
  · omega
  · omega

/-- Length bound for the whole payload of the focus branch: the two ..
markers plus the window slice stay within maxLen + 4. -/
theorem focusBranchBound (content : List Char) (maxLen s0 e0 : Nat)
    (hs0e0 : s0 ≤ e0) (he0 : e0 ≤ content.length) :
    ((if (0 : Int) < max ((s0 : Int) -
        Int.fdiv ((maxLen : Int) - ((e0 : Int) - (s0 : Int))) 2) 0
        then ['.', '.'] else ([] : List Char)) ++
      pySliceInt content
        (max ((s0 : Int) -
          Int.fdiv ((maxLen : Int) - ((e0 : Int) - (s0 : Int))) 2) 0)
        (min ((e0 : Int) +
          Int.fdiv ((maxLen : Int) - ((e0 : Int) - (s0 : Int))) 2)
          (content.length : Int)) ++
      (if min ((e0 : Int) +
          Int.fdiv ((maxLen : Int) - ((e0 : Int) - (s0 : Int))) 2)
          (content.length : Int) < (content.length : Int)
        then ['.', '.'] else ([] : List Char))).length ≤ maxLen + 4 := by
  have hwin := windowSliceBound content maxLen s0 e0 hs0e0 he0
  simp only [List.length_append]
  split <;> split <;>
    simp only [List.length_cons, List.length_nil] <;> omega

/-- C7 amended: every value shortened_string actually returns has length
at most max_string_length plus the four characters of the two .. markers;
the focus branch can use up to the full 4-character excess even when
max_string_length is far above the focus window, and the no-focus branch
(when its loop terminates) stays within max_string_length itself. -/
theorem C7_shortened_string_length (content F : List Char)
    (maxLen ctx : Nat) (out : List Char)
    (h : shortened_string content F maxLen ctx = some out) :
    out.length ≤ maxLen + 4 := by
  rw [shortened_string] at h
  by_cases h0 : content.length ≤ maxLen
  · rw [if_pos h0] at h
    injection h with h
    subst h
    omega
  · rw [if_neg h0] at h
    by_cases hfoc : F ≠ [] ∧ strContains content F
    · rw [if_pos hfoc] at h
      obtain ⟨hF, hcont⟩ := hfoc
      have hocc : (content.drop (strFindIdx content F)).take F.length = F :=
        strFindIdx_spec hcont
      have hfs : strFindIdx content F + F.length ≤ content.length :=
        take_eq_of_substr_at hocc hF
      injection h with h
      subst h
      exact focusBranchBound content maxLen (strFindIdx content F - ctx)
        (min (strFindIdx content F + F.length + ctx) content.length)
        (by omega) (min_le_right _ _)
    · rw [if_neg hfoc] at h
      have h2 : (match trimParts
          (content.take (scanLeft content (content.length / 2)))
          (content.drop (scanRight content (content.length / 2)))
          maxLen with
        | none => none
        | some pr => some (pr.1 ++ ['.', '.'] ++ pr.2)) = some out := h
      split at h2
      · simp at h2
      · rename_i pr heq
        injection h2 with h2
        subst h2
        have hfit := trimParts_fits heq
        simp only [List.length_append, List.length_cons, List.length_nil]
        omega

/-- Witness for C7 amended at a concrete input: a fitting string is
returned whole and satisfies the bound. -/
theorem C7_shortened_string_length_witness :
    List.length "short".data ≤ 10 + 4 :=
  C7_shortened_string_length "short".data [] 10 5 "short".data (by decide)

/-! ### Collapser and content formatter node model -/

/-- Minimal model of the external parsed tree for the collapser: an
element with its attribute map, its ordered children, and the two string
node kinds (NavigableString and Comment). -/
inductive HNode where
  | elem (name : List Char) (attrs : List (List Char × List Char))
      (children : List HNode)
  | htext (s : List Char)
  | hcomment (s : List Char)

/-- bs4 elem.string: a string node is its own string; an element with
exactly one child recurses into it; any other element has none. -/
def nodeString : HNode → Option (List Char)
  | .htext s => some s
  | .hcomment s => some s
  | .elem _ _ [c] => nodeString c
  | .elem _ _ _ => none

/-- One step of Python str.splitlines line scanning: drop the first line
together with its terminator. Of the Python terminator set, the ones
relevant to markup text are modelled: newline, carriage return, and their
two-character combination counting once. -/
def afterFirstLine : List Char → List Char
  | [] => []
  | '\r' :: '\n' :: r => r
  | '\n' :: r => r
  | '\r' :: r => r
  | _ :: r => afterFirstLine r

/-- len(s.splitlines()) with a flag for a currently open line: every
terminator closes one counted line (possibly empty) and trailing text
counts one more. -/
def slCountAux : Bool → List Char → Nat
  | inLine, [] => if inLine then 1 else 0
  | _, '\r' :: '\n' :: rest => 1 + slCountAux false rest
  | _, '\n' :: rest => 1 + slCountAux false rest
  | _, '\r' :: rest => 1 + slCountAux false rest
  | _, _ :: rest => slCountAux true rest

/-- len(s.splitlines()) of Python. -/
def slCount (s : List Char) : Nat := slCountAux false s

/-- Python ", ".join. -/
def joinComma : List (List Char) → List Char
  | [] => []
  | [p] => p
  | p :: q :: rest => p ++ ", ".data ++ joinComma (q :: rest)

/-- len(elem.attrs) of the model. -/
def elemAttrsCount : HNode → Nat
  | .elem _ attrs _ => attrs.length
  | _ => 0

/-- len(list(elem.children)) of the model: all direct child nodes,
whatever their kind. -/
def elemChildCount : HNode → Nat
  | .elem _ _ cs => cs.length
  | _ => 0

/-- The comment text built by the per-element loop body of
collapse_html_elements: comment_parts gets the attrs part when attributes
exist, then the chars/lines part when elem.string is truthy (a nonempty
unique string descendant), then the elems part counting every direct
child node; the parts are joined with a comma and wrapped. Clearing the
attributes between the first and second check does not affect elem.string
or the children, so the original fields are read throughout. -/
def collapseSummary (e : HNode) : List Char :=
  let parts1 : List (List Char) :=
    if elemAttrsCount e ≠ 0 then [natStr (elemAttrsCount e) ++ " attrs".data]
    else []
  let parts2 : List (List Char) :=
    match nodeString e with
    | some s =>
      if s ≠ [] then
        parts1 ++ [natStr s.length ++ " chars, ".data ++
          natStr (slCount s) ++ " lines".data]
      else parts1
    | none => parts1
  let parts3 : List (List Char) :=
    if elemChildCount e ≠ 0 then
      parts2 ++ [natStr (elemChildCount e) ++ " elems".data]
    else parts2
  "Content collapsed: ".data ++ joinComma parts3 ++ " omitted".data

/-- The subtree rewrite of collapse_html_elements on one matched element
(matching itself is the external selection collaborator): attributes are
cleared, the element is cleared and the synthetic comment appended. -/
def collapseElement : HNode → HNode
  | .elem name attrs children =>
    .elem name [] [.hcomment (collapseSummary (.elem name attrs children))]
  | other => other

/-- The concatenated direct text children of an element, as the claim
reads "direct text". -/
def directTextOf : HNode → List Char
  | .elem _ _ cs =>
    (cs.map (fun c => match c with | HNode.htext s => s | _ => [])).flatten
  | _ => []

/-- The number of direct child ELEMENTS, as the claim reads
"child-element count". -/
def childElemCount : HNode → Nat
  | .elem _ _ cs =>
    (cs.filter (fun c =>
      match c with | HNode.elem _ _ _ => true | _ => false)).length
  | _ => 0

/-- Modelled from the spec: the collapse summary as the claim words it,
with the direct-text counts taken from the concatenated direct text and
the elems part counting only child elements. -/
def specCollapseSummary (e : HNode) : List Char :=
  let p1 : List (List Char) :=
    if elemAttrsCount e ≠ 0 then [natStr (elemAttrsCount e) ++ " attrs".data]
    else []
  let p2 : List (List Char) :=
    if directTextOf e ≠ [] then
      [natStr (directTextOf e).length ++ " chars, ".data ++
        natStr (slCount (directTextOf e)) ++ " lines".data]
    else []
  let p3 : List (List Char) :=
    if childElemCount e ≠ 0 then [natStr (childElemCount e) ++ " elems".data]
    else []
  "Content collapsed: ".data ++ joinComma (p1 ++ p2 ++ p3) ++ " omitted".data

/-- A script element with a direct text child and one element child. -/
def c8Elem : HNode :=
  .elem "script".data [] [.htext ['x'], .elem ['b'] [] []]

/-- C8 counterexample: on an element with a text child and an element
child the code says "2 elems" (all direct child nodes, no chars/lines
because elem.string is None with two children), while the claim says "1
chars, 1 lines, 1 elems" (direct text plus child-element count). -/
theorem C8_collapse_counterexample :
    collapseSummary c8Elem = "Content collapsed: 2 elems omitted".data ∧
    specCollapseSummary c8Elem =
      "Content collapsed: 1 chars, 1 lines, 1 elems omitted".data ∧
    collapseSummary c8Elem ≠ specCollapseSummary c8Elem := by decide

/-- C8 amended: the collapser replaces the whole subtree of a matched
element with a single synthetic comment, the attributes are cleared, and
the summary joins with ", ": the attribute count (if > 0), the character
and splitlines counts of elem.string — the unique (possibly nested)
string descendant, when it exists and is nonempty, not the direct text —
and the count of ALL direct child nodes (text and comment nodes included)
as "elems" (if > 0), wrapped as "Content collapsed: ... omitted". -/
theorem C8_collapse_behavior (name : List Char)
    (attrs : List (List Char × List Char)) (children : List HNode) :
    collapseElement (.elem name attrs children) =
      .elem name [] [.hcomment ("Content collapsed: ".data ++ joinComma (
        (if attrs.length ≠ 0 then [natStr attrs.length ++ " attrs".data]
          else []) ++
        (match nodeString (.elem name attrs children) with
          | some s =>
            if s ≠ [] then
              [natStr s.length ++ " chars, ".data ++
                natStr (slCount s) ++ " lines".data]
            else []
          | none => []) ++
        (if children.length ≠ 0 then
          [natStr children.length ++ " elems".data] else [])) ++
        " omitted".data)] := by
  simp only [collapseElement, collapseSummary, elemAttrsCount,
    elemChildCount]
  cases hns : nodeString (.elem name attrs children) with
  | none => split_ifs <;> simp
  | some s => by_cases hs : s = [] <;> split_ifs <;> simp [hs]

/-! ### format_content -/

/-- The NavigableString argument of format_content: either a plain text
node or a Comment. -/
inductive NavString where
  | str (s : List Char)
  | comment (s : List Char)

/-- Python str.strip() restricted to the ASCII whitespace characters. -/
def isPySpace (c : Char) : Bool :=
  c == ' ' || c == '\t' || c == '\n' || c == '\r' ||
    c == '\x0b' || c == '\x0c'

/-- Python str.strip(): whitespace removed from both ends. -/
def pyStrip (s : List Char) : List Char :=
  ((s.dropWhile isPySpace).reverse.dropWhile isPySpace).reverse

/-- format_content of the source: a Comment renders as the f-string
"<!-- {content} --->" (note the three dashes in the source literal); any
other NavigableString is stripped and shortened with the effective limit
max(max_content_size, 50) and the default context length 5. -/
def format_content (content : NavString) (F : List Char)
    (maxContentSize : Nat) : Option (List Char) :=
  match content with
  | .comment s => some ("<!-- ".data ++ s ++ " --->".data)
  | .str s => shortened_string (pyStrip s) F (max maxContentSize 50) 5

/-- C9 counterexample: the comment rendering closes with three dashes,
not the two-dash "-->" form the claim states. -/
theorem C9_comment_counterexample :
    format_content (NavString.comment ['x']) [] 0 =
      some "<!-- x --->".data ∧
    "<!-- x --->".data ≠ "<!-- x -->".data := by decide

/-- C9 amended: every Comment node renders verbatim and unshortened as
"<!-- " ++ content ++ " --->", with a three-dash closing marker. -/
theorem C9_comment_rendering (s F : List Char) (b : Nat) :
    format_content (NavString.comment s) F b =
      some ("<!-- ".data ++ s ++ " --->".data) := rfl

/-- C10: a text node is shortened against the stripped content with the
effective limit max(budget, 50); in particular a stripped text of at most
50 characters is returned unchanged whatever the allocated budget, so the
rendered text can exceed the budget. -/
theorem C10_text_budget_floor (s F : List Char) (b : Nat) :
    format_content (NavString.str s) F b =
      shortened_string (pyStrip s) F (max b 50) 5 ∧
    ((pyStrip s).length ≤ 50 →
      format_content (NavString.str s) F b = some (pyStrip s)) := by
  refine ⟨rfl, fun hle => ?_⟩
  show shortened_string (pyStrip s) F (max b 50) 5 = some (pyStrip s)
  rw [shortened_string, if_pos (by omega)]

/-- Witness for C10 at a concrete input: budget 0, stripped text "hi" of
length 2 returned unchanged, exceeding the budget. -/
theorem C10_text_budget_floor_witness :
    format_content (NavString.str "  hi  ".data) [] 0 =
      some (pyStrip "  hi  ".data) ∧
    0 < (pyStrip "  hi  ".data).length :=
  ⟨(C10_text_budget_floor "  hi  ".data [] 0).2 (by decide), by decide⟩

end HtmlExtractor
